import Mathlib

/-!
Shallow embedding of the mmu simulator (src/main.rs, src/addr.rs, src/memory.rs,
src/page.rs): address bit-manipulation, page-table entries, flat physical memory
with bounds-checked typed access, the 128x4 TLB, the 64x8 L1 data cache, and the
Machine orchestration (translate / read_phys / read / map_page / unmap_page /
invalidate_tlb).  Machine integers are modelled as Nat with explicit masks where
the Rust code operates on u64 / usize.  Fallible operations (the Rust code
panics on out-of-bounds physical access and on out-of-range array indexing)
return Option, with none standing for the panic.
-/

/-- Two to the 64, the modulus of u64 / usize arithmetic. -/
def U64 : Nat := 18446744073709551616

/-- VirtAddr::page_offset : the low 12 bits (src/main.rs line 48). -/
def VirtAddr.page_offset (v : Nat) : Nat := v &&& 4095

/-- VirtAddr::virtual_page_number : the address shifted right by 12 (line 51). -/
def VirtAddr.virtual_page_number (v : Nat) : Nat := v >>> 12

/-- VirtAddr::vpn1 : bits 39..47 (line 54). -/
def VirtAddr.vpn1 (v : Nat) : Nat := (v >>> 39) &&& 511

/-- VirtAddr::vpn2 : bits 30..38 (line 57). -/
def VirtAddr.vpn2 (v : Nat) : Nat := (v >>> 30) &&& 511

/-- VirtAddr::vpn3 : bits 21..29 (line 60). -/
def VirtAddr.vpn3 (v : Nat) : Nat := (v >>> 21) &&& 511

/-- VirtAddr::vpn4 : bits 12..20 (line 63). -/
def VirtAddr.vpn4 (v : Nat) : Nat := (v >>> 12) &&& 511

/-- PhysAddr::with_offset : clear the low 12 bits (u64 mask !4095 =
0xFFFFFFFFFFFFF000) and or in the offset masked to 12 bits (line 17). -/
def PhysAddr.with_offset (a offset : Nat) : Nat :=
  (a &&& 0xFFFFFFFFFFFFF000) ||| (offset &&& 4095)

/-- PhysAddr::frame_offset : the low 12 bits (line 22). -/
def PhysAddr.frame_offset (a : Nat) : Nat := a &&& 4095

/-- PhysAddr::frame_number : the address shifted right by 12 (line 25). -/
def PhysAddr.frame_number (a : Nat) : Nat := a >>> 12

/-- PageTableEntry::new_present : target masked to bits 12..59 with the present
bit (bit 0) set (src/page.rs line 10, src/main.rs line 74). -/
def PageTableEntry.new_present (target : Nat) : Nat :=
  target &&& 0x000FFFFFFFFFFFF000 ||| 1

/-- PageTableEntry::new_unmapped : all bits zero (src/page.rs line 16). -/
def PageTableEntry.new_unmapped : Nat := 0

/-- PageTableEntry::is_present : bit 0 tested as bits & 1 > 0 (src/page.rs
line 20). -/
def PageTableEntry.is_present (e : Nat) : Bool := decide (0 < e &&& 1)

/-- PageTableEntry::phys_addr : bits 12..59 of the entry (src/page.rs
line 24). -/
def PageTableEntry.phys_addr (e : Nat) : Nat := e &&& 0x000FFFFFFFFFFFF000

/-- PhysicalMemory (struct Memory, src/memory.rs): a flat byte store.  The
byte content is a function from index to byte value; len is the buffer
length. -/
structure Memory where
  len : Nat
  bytes : Nat → Nat

/-- Memory::megabytes : mb << 20 zero bytes (src/memory.rs line 8). -/
def Memory.megabytes (mb : Nat) : Memory := ⟨mb <<< 20, fun _ => 0⟩

/-- Memory::read with a type of size count (src/memory.rs line 13): the usize
sum addr + count wraps modulo 2^64; if the wrapped sum exceeds the buffer
length the code panics, then indexing the byte at addr panics unless
addr < len; otherwise the count bytes starting at addr are reinterpreted as
the value.  The result view returns byte i of the value for i < count and 0
beyond it; none models the panic. -/
def Memory.read (m : Memory) (a count : Nat) : Option (Nat → Nat) :=
  if (a + count) % U64 > m.len then none
  else if a < m.len then
    some (fun i => if i < count then m.bytes (a + i) % 256 else 0)
  else none

/-- Memory::edit with a type of size count (src/memory.rs line 25): same
bounds check as read, then the caller may overwrite the count bytes starting
at addr through the returned mutable reference; v gives the new bytes of the
window.  none models the panic. -/
def Memory.edit (m : Memory) (a count : Nat) (v : Nat → Nat) : Option Memory :=
  if (a + count) % U64 > m.len then none
  else if a < m.len then
    some ⟨m.len, fun i => if a ≤ i ∧ i < a + count then v (i - a) % 256 else m.bytes i⟩
  else none

/-- Little-endian byte decomposition of the u64 value v: byte k of its 8-byte
store image, as written by assigning a PageTableEntry into memory. -/
def u64Byte (v k : Nat) : Nat := v / 2 ^ (8 * k) % 256

/-- Store the u64 value v little-endian into the 8 bytes starting at a,
leaving every other byte unchanged. -/
def writeU64Bytes (b : Nat → Nat) (a v : Nat) : Nat → Nat :=
  fun i => if a ≤ i ∧ i < a + 8 then u64Byte v (i - a) else b i

/-- Little-endian u64 read of 8 bytes starting at index a of the view b: the
host-endian reinterpretation of a PageTableEntry inside a decoded
PageTable. -/
def readU64At (b : Nat → Nat) (a : Nat) : Nat :=
  b a + b (a + 1) * 2 ^ 8 + b (a + 2) * 2 ^ 16 + b (a + 3) * 2 ^ 24 +
  b (a + 4) * 2 ^ 32 + b (a + 5) * 2 ^ 40 + b (a + 6) * 2 ^ 48 + b (a + 7) * 2 ^ 56

/-- Decode a PageTable from PhysicalMemory at location loc (the 4096-byte
typed read memory.read::<PageTable>) and return entry idx, the u64 at byte
offset 8 * idx.  none models the out-of-bounds panic. -/
def readEntry (m : Memory) (loc idx : Nat) : Option Nat :=
  (m.read loc 4096).map (fun b => readU64At b (8 * idx))

/-- TlbEntry (src/main.rs line 221): valid flag, u8 access counter, tag and
cached PhysAddr. -/
structure TlbEntry where
  valid : Bool
  access : Nat
  tag : Nat
  addr : Nat
deriving DecidableEq

/-- TlbEntry::invalid (line 231). -/
def TlbEntry.invalid : TlbEntry := ⟨false, 0, 0, 0⟩

/-- TlbEntry::mark_accessed : u8 saturating increment of the access counter
(line 228). -/
def TlbEntry.mark_accessed (e : TlbEntry) : TlbEntry :=
  { e with access := min (e.access + 1) 255 }

/-- L1dCacheEntry (line 110): valid flag, tag, 64-byte line (byte index to
byte value; indices 64 and beyond are unused and held at 0). -/
structure L1Entry where
  valid : Bool
  tag : Nat
  line : Nat → Nat

/-- L1dCacheEntry::empty (line 145). -/
def L1Entry.empty : L1Entry := ⟨false, 0, fun _ => 0⟩

/-- Hit and miss counters of one cache (struct CacheStats, line 303). -/
structure CacheStats where
  hit : Nat
  miss : Nat
deriving DecidableEq

/-- CacheStats::hit (line 311). -/
def CacheStats.addHit (s : CacheStats) : CacheStats := { s with hit := s.hit + 1 }

/-- CacheStats::miss (line 314). -/
def CacheStats.addMiss (s : CacheStats) : CacheStats := { s with miss := s.miss + 1 }

/-- Stats (line 319): page-fault counter plus L1 and TLB hit/miss counters. -/
structure Stats where
  page_faults : Nat
  l1 : CacheStats
  tlb : CacheStats
deriving DecidableEq

/-- Stats::new (line 325). -/
def Stats.new : Stats := ⟨0, ⟨0, 0⟩, ⟨0, 0⟩⟩

/-- PageFault (line 371), the unit error of translation. -/
structure PageFault where
deriving DecidableEq

-- Decidable equality of translation results, for concrete evaluation.
deriving instance DecidableEq for Except

/-- The Machine (line 361): root table pointer cr3, the TLB as a function
from set index (0..127) and way (0..3) to TlbEntry, physical memory, the L1
cache as a function from set index (0..63) and way (0..7) to L1Entry, and the
statistics counters.  The Log field is omitted: it only prints. -/
structure Machine where
  cr3 : Nat
  tlb : Nat → Nat → TlbEntry
  memory : Memory
  cache : Nat → Nat → L1Entry
  stats : Stats

/-- Pointwise update of a function at one index. -/
def upd {α : Type} (f : Nat → α) (i : Nat) (x : α) : Nat → α :=
  fun j => if j = i then x else f j

/-- The TLB lookup scan of translate (lines 380-387): the first way i in
0,1,2,3 whose tag equals the lookup tag and which is valid. -/
def tlbFind (set : Nat → TlbEntry) (tag : Nat) : Option Nat :=
  List.find? (fun i => (set i).tag == tag && (set i).valid) [0, 1, 2, 3]

/-- The TLB victim-selection loop of translate (lines 426-438): k starts
at 0; scanning i = 0,1,2,3, the first invalid way ends the loop as victim,
otherwise a way with strictly fewer accesses than the current k replaces
k. -/
def tlbVictimGo (set : Nat → TlbEntry) : Nat → List Nat → Nat
  | k, [] => k
  | k, i :: rest =>
    if (set i).valid = false then i
    else tlbVictimGo set (if (set i).access < (set k).access then i else k) rest

/-- The TLB victim of a set: the loop above over ways 0,1,2,3. -/
def tlbVictim (set : Nat → TlbEntry) : Nat := tlbVictimGo set 0 [0, 1, 2, 3]

/-- The L1 lookup scan of read_phys (lines 469-475): the first way i in 0..7
that is valid and whose tag matches. -/
def l1Find (set : Nat → L1Entry) (tag : Nat) : Option Nat :=
  List.find? (fun i => (set i).valid && (set i).tag == tag) [0, 1, 2, 3, 4, 5, 6, 7]

/-- The L1 victim-selection loop of read_phys (lines 484-489): k starts at 0
and is overwritten by every invalid way met, so the last invalid way wins,
or way 0 if every way is valid. -/
def l1Victim (set : Nat → L1Entry) : Nat :=
  List.foldl (fun k i => if (set i).valid = false then i else k) 0 [0, 1, 2, 3, 4, 5, 6, 7]

/-- Statistics update of a translation that misses the TLB and page-faults:
the TLB miss counter and the page-fault counter each go up by one (lines 389,
392). -/
def faultStats (s : Stats) : Stats :=
  { s with tlb := s.tlb.addMiss, page_faults := s.page_faults + 1 }

/-- Machine::translate (src/main.rs lines 374-459).  The result pairs the
Ok PhysAddr or the PageFault with the machine after the call; none models an
out-of-bounds panic inside a page-table read. -/
def Machine.translate (m : Machine) (virt_addr : Nat) : Option (Except PageFault Nat × Machine) :=
  let tlb_index := VirtAddr.virtual_page_number virt_addr &&& 127
  let tlb_tag := (VirtAddr.virtual_page_number virt_addr >>> 7) <<< 7
  let page_offset := VirtAddr.page_offset virt_addr
  let set := m.tlb tlb_index
  match tlbFind set tlb_tag with
  | some i =>
    some (Except.ok (PhysAddr.with_offset (set i).addr page_offset),
      { m with
        tlb := upd m.tlb tlb_index (upd set i (set i).mark_accessed),
        stats := { m.stats with tlb := m.stats.tlb.addHit } })
  | none =>
    match readEntry m.memory m.cr3 (VirtAddr.vpn1 virt_addr) with
    | none => none
    | some pte1 =>
      if PageTableEntry.is_present pte1 = false then
        some (Except.error {}, { m with stats := faultStats m.stats })
      else
        match readEntry m.memory (PageTableEntry.phys_addr pte1) (VirtAddr.vpn2 virt_addr) with
        | none => none
        | some pte2 =>
          if PageTableEntry.is_present pte2 = false then
            some (Except.error {}, { m with stats := faultStats m.stats })
          else
            match readEntry m.memory (PageTableEntry.phys_addr pte2) (VirtAddr.vpn3 virt_addr) with
            | none => none
            | some pte3 =>
              if PageTableEntry.is_present pte3 = false then
                some (Except.error {}, { m with stats := faultStats m.stats })
              else
                match readEntry m.memory (PageTableEntry.phys_addr pte3) (VirtAddr.vpn4 virt_addr) with
                | none => none
                | some pte4 =>
                  if PageTableEntry.is_present pte4 = false then
                    some (Except.error {}, { m with stats := faultStats m.stats })
                  else
                    let phys_addr := PageTableEntry.phys_addr pte4
                    let k := tlbVictim set
                    let setR := fun j => if j < 4 then { set j with access := 0 } else set j
                    let newE := TlbEntry.mark_accessed
                      { setR k with valid := true, addr := phys_addr, tag := tlb_tag }
                    some (Except.ok (PhysAddr.with_offset phys_addr page_offset),
                      { m with
                        tlb := upd m.tlb tlb_index (upd setR k newE),
                        stats := { m.stats with
                          tlb := m.stats.tlb.addMiss,
                          page_faults := m.stats.page_faults + 1 - 1 } })

/-- Machine::read_phys (src/main.rs lines 461-505).  Returns the byte and the
machine after the call; none models the out-of-bounds panic of the line
load. -/
def Machine.read_phys (m : Machine) (addr : Nat) : Option (Nat × Machine) :=
  let offset := PhysAddr.frame_offset addr &&& 63
  let index := (PhysAddr.frame_offset addr >>> 6) &&& 63
  let tag := PhysAddr.frame_number addr
  let set := m.cache index
  match l1Find set tag with
  | some i =>
    some ((set i).line offset,
      { m with stats := { m.stats with l1 := m.stats.l1.addHit } })
  | none =>
    let k := l1Victim set
    let block_addr := addr &&& 0xFFFFFFFFFFFFFFC0
    match m.memory.read block_addr 64 with
    | none => none
    | some bv =>
      some (bv offset,
        { m with
          cache := upd m.cache index (upd set k ⟨true, tag, bv⟩),
          stats := { m.stats with l1 := m.stats.l1.addMiss } })

/-- Machine::read (src/main.rs lines 507-518): translate, propagate a
PageFault unchanged, otherwise read_phys the translated address. -/
def Machine.read (m : Machine) (addr : Nat) : Option (Except PageFault Nat × Machine) :=
  match m.translate addr with
  | none => none
  | some (Except.error e, m1) => some (Except.error e, m1)
  | some (Except.ok phys_addr, m1) =>
    match m1.read_phys phys_addr with
    | none => none
    | some (byte, m2) => some (Except.ok byte, m2)

/-- Machine::invalidate_tlb (src/main.rs lines 520-523): every TLB entry
becomes TlbEntry::invalid. -/
def Machine.invalidate_tlb (m : Machine) : Machine :=
  { m with tlb := fun _ _ => TlbEntry.invalid }

/-- Machine::map_page (src/main.rs lines 525-534): bounds-check the
4096-byte PageTable window at table_location as Memory::edit does, panic
(none) on failure or when the entry index is out of the 512-entry array,
otherwise overwrite entry table_entry with new_present target_frame. -/
def Machine.map_page (m : Machine) (table_location table_entry target_frame : Nat) : Option Machine :=
  if (table_location + 4096) % U64 > m.memory.len then none
  else if table_location < m.memory.len then
    if table_entry < 512 then
      some { m with memory :=
        ⟨m.memory.len,
         writeU64Bytes m.memory.bytes (table_location + 8 * table_entry)
           (PageTableEntry.new_present target_frame)⟩ }
    else none
  else none

/-- Machine::unmap_page (src/main.rs lines 536-542): like map_page but the
entry is overwritten with new_unmapped. -/
def Machine.unmap_page (m : Machine) (table_location table_entry : Nat) : Option Machine :=
  if (table_location + 4096) % U64 > m.memory.len then none
  else if table_location < m.memory.len then
    if table_entry < 512 then
      some { m with memory :=
        ⟨m.memory.len,
         writeU64Bytes m.memory.bytes (table_location + 8 * table_entry)
           PageTableEntry.new_unmapped⟩ }
    else none
  else none

/-- Net statistics update of a translation that misses the TLB and completes
the walk: TLB miss counter up by one; the page-fault counter is incremented
before the walk and decremented after it succeeds (lines 389-422). -/
def missInsertStats (s : Stats) : Stats :=
  { s with tlb := s.tlb.addMiss, page_faults := s.page_faults + 1 - 1 }

/-- Spec-side description, following the words of the spec (section 4.6) and
of claim C1: walk exactly 4 levels starting at cr3, at each level decode a
PageTable from PhysicalMemory at the current physical location, index it
with vpn1..vpn4 in order, fail immediately with PageFault when the indexed
entry is not present, and produce the physical address stored in the
4th-level entry. -/
def pageWalkSpec (mem : Memory) (cr3 v : Nat) : Option (Except PageFault Nat) :=
  match readEntry mem cr3 (VirtAddr.vpn1 v) with
  | none => none
  | some e1 =>
    if PageTableEntry.is_present e1 = false then some (Except.error {})
    else
      match readEntry mem (PageTableEntry.phys_addr e1) (VirtAddr.vpn2 v) with
      | none => none
      | some e2 =>
        if PageTableEntry.is_present e2 = false then some (Except.error {})
        else
          match readEntry mem (PageTableEntry.phys_addr e2) (VirtAddr.vpn3 v) with
          | none => none
          | some e3 =>
            if PageTableEntry.is_present e3 = false then some (Except.error {})
            else
              match readEntry mem (PageTableEntry.phys_addr e3) (VirtAddr.vpn4 v) with
              | none => none
              | some e4 =>
                if PageTableEntry.is_present e4 = false then some (Except.error {})
                else some (Except.ok (PageTableEntry.phys_addr e4))

/-- Spec-side description of TLB victim selection, following the words of
the spec (section 4.4) and of claim C3: the first invalid way wins
immediately; if all four ways are valid, the way with the lowest access
counter wins, the first encountered winning ties. -/
def tlbVictimSpec (set : Nat → TlbEntry) : Nat :=
  match List.find? (fun i => !(set i).valid) [0, 1, 2, 3] with
  | some i => i
  | none => List.foldl (fun k i => if (set i).access < (set k).access then i else k) 0 [1, 2, 3]

/-- Spec-side description of L1 victim selection, following the words of the
spec (section 4.5) and of claim C4: the last way index encountered with
valid equal to false, or way 0 if no way is invalid. -/
def l1VictimSpec (set : Nat → L1Entry) : Nat :=
  match List.find? (fun i => !(set i).valid) [7, 6, 5, 4, 3, 2, 1, 0] with
  | some i => i
  | none => 0

/-- No TLB set holds two distinct valid ways with the same tag. -/
def TlbUniq (m : Machine) : Prop :=
  ∀ s i j, i < 4 → j < 4 → i ≠ j →
    (m.tlb s i).valid = true → (m.tlb s j).valid = true →
    (m.tlb s i).tag ≠ (m.tlb s j).tag

/-- Machine states reachable from a freshly constructed Machine (empty TLB
and cache, zeroed memory, as built in main, src/main.rs lines 685-692)
through the public operations of Machine. -/
inductive Reachable : Machine → Prop where
  | init (cr3 mb : Nat) :
      Reachable ⟨cr3, fun _ _ => TlbEntry.invalid, Memory.megabytes mb,
        fun _ _ => L1Entry.empty, Stats.new⟩
  | translate (m : Machine) (v : Nat) (r : Except PageFault Nat) (m2 : Machine) :
      Reachable m → m.translate v = some (r, m2) → Reachable m2
  | read_phys (m : Machine) (a b : Nat) (m2 : Machine) :
      Reachable m → m.read_phys a = some (b, m2) → Reachable m2
  | read (m : Machine) (v : Nat) (r : Except PageFault Nat) (m2 : Machine) :
      Reachable m → m.read v = some (r, m2) → Reachable m2
  | map_page (m : Machine) (loc idx t : Nat) (m2 : Machine) :
      Reachable m → m.map_page loc idx t = some m2 → Reachable m2
  | unmap_page (m : Machine) (loc idx : Nat) (m2 : Machine) :
      Reachable m → m.unmap_page loc idx = some m2 → Reachable m2
  | invalidate_tlb (m : Machine) : Reachable m → Reachable m.invalidate_tlb

/-- A freshly constructed Machine with one megabyte of zeroed physical
memory and the root page table at physical address 4096. -/
def M0 : Machine :=
  ⟨4096, fun _ _ => TlbEntry.invalid, Memory.megabytes 1,
   fun _ _ => L1Entry.empty, Stats.new⟩

/-- M0 after building the 4-level chain 4096[0] -> 8192[0] -> 12288[0] ->
16384[0] -> frame 20480 with map_page, so that virtual address 0 translates
to physical address 20480. -/
def MB : Machine :=
  ((((M0.map_page 4096 0 8192).bind (fun m => m.map_page 8192 0 12288)).bind
      (fun m => m.map_page 12288 0 16384)).bind
      (fun m => m.map_page 16384 0 20480)).getD M0

/-- MB after one translate of virtual address 0: the TLB now caches the
translation of virtual page 0. -/
def MBt : Machine := ((MB.translate 0).map Prod.snd).getD MB

/-- MBt after unmapping the 4th-level slot (table 16384, entry 0): the walk
for virtual page 0 now faults, but the TLB still holds the old
translation. -/
def MBtu : Machine := (MBt.unmap_page 16384 0).getD MBt

/-- MB after unmapping the 4th-level slot (table 16384, entry 0) with the
TLB still empty. -/
def MBu : Machine := (MB.unmap_page 16384 0).getD MB

/-- The machine after MB.read 0 (a TLB-miss read that walks the tables,
inserts the translation, and loads one cache line). -/
def MBr : Machine := ((MB.read 0).map Prod.snd).getD MB

/-- The machine after a faulting translate on the fresh machine M0. -/
def M0f : Machine := ((M0.translate 0).map Prod.snd).getD M0

/-- Spec-side description of the TLB set after a miss insert (sections 4.4
and 4.6 of the spec): every way's access counter is reset to 0, and the
victim way chosen by the spec's policy is marked valid, given the new tag
and cached PhysAddr, and its counter bumped to 1 by the accessed-marking
routine. -/
def tlbInsertSet (set : Nat → TlbEntry) (tag pa : Nat) : Nat → TlbEntry :=
  fun j =>
    if j = tlbVictimSpec set then TlbEntry.mark_accessed ⟨true, 0, tag, pa⟩
    else if j < 4 then { set j with access := 0 }
    else set j

/-- A fresh machine whose L1 cache holds one valid entry in every way (used
to exhibit that no Machine operation invalidates the cache). -/
def MC : Machine :=
  ⟨4096, fun _ _ => TlbEntry.invalid, Memory.megabytes 1,
   fun _ _ => ⟨true, 7, fun _ => 0⟩, Stats.new⟩


/-- The pointwise update at the updated index. -/
lemma upd_self {α : Type} (f : Nat → α) (i : Nat) (x : α) : upd f i x i = x := by
  simp [upd]

/-- The victim-selection loop only ever returns the initial k or a scanned
way. -/
lemma tlbVictimGo_mem (set : Nat → TlbEntry) (k : Nat) (l : List Nat) :
    tlbVictimGo set k l ∈ k :: l := by
  induction l generalizing k with
  | nil => simp [tlbVictimGo]
  | cons i rest ih =>
    unfold tlbVictimGo
    by_cases h : (set i).valid = false
    · simp [h]
    · rw [if_neg h]
      by_cases hc : (set i).access < (set k).access
      · rw [if_pos hc]
        have h2 := ih (k := i)
        simp only [List.mem_cons] at h2 ⊢
        tauto
      · rw [if_neg hc]
        have h2 := ih (k := k)
        simp only [List.mem_cons] at h2 ⊢
        tauto

/-- The TLB victim is one of the four ways. -/
lemma tlbVictim_lt_four (set : Nat → TlbEntry) : tlbVictim set < 4 := by
  have h := tlbVictimGo_mem set 0 [0, 1, 2, 3]
  simp only [List.mem_cons, List.not_mem_nil, or_false] at h
  unfold tlbVictim
  rcases h with h | h | h | h | h <;> omega

/-- The victim-selection loop of translate computes exactly the policy the
spec describes: first invalid way, otherwise lowest access count with the
first way winning ties. -/
lemma tlbVictim_eq_spec (set : Nat → TlbEntry) : tlbVictim set = tlbVictimSpec set := by
  unfold tlbVictim tlbVictimSpec
  cases h0 : (set 0).valid <;> cases h1 : (set 1).valid <;>
    cases h2 : (set 2).valid <;> cases h3 : (set 3).valid <;>
    simp [tlbVictimGo, h0, h1, h2, h3, List.find?]

/-- The L1 victim-selection fold only ever returns the initial k or a
scanned way. -/
lemma l1VictimFold_mem (set : Nat → L1Entry) (k : Nat) (l : List Nat) :
    List.foldl (fun k i => if (set i).valid = false then i else k) k l ∈ k :: l := by
  induction l generalizing k with
  | nil => simp
  | cons i rest ih =>
    rw [List.foldl_cons]
    by_cases hc : (set i).valid = false
    · rw [if_pos hc]
      have h2 := ih (k := i)
      simp only [List.mem_cons] at h2 ⊢
      tauto
    · rw [if_neg hc]
      have h2 := ih (k := k)
      simp only [List.mem_cons] at h2 ⊢
      tauto

/-- The L1 victim is one of the eight ways. -/
lemma l1Victim_lt_eight (set : Nat → L1Entry) : l1Victim set < 8 := by
  have h := l1VictimFold_mem set 0 [0, 1, 2, 3, 4, 5, 6, 7]
  simp only [List.mem_cons, List.not_mem_nil, or_false] at h
  unfold l1Victim
  rcases h with h | h | h | h | h | h | h | h | h <;> omega

/-- The victim-selection loop of read_phys computes exactly the policy the
spec describes: the last way encountered with valid equal to false, or way 0
if every way is valid. -/
lemma l1Victim_eq_spec (set : Nat → L1Entry) : l1Victim set = l1VictimSpec set := by
  unfold l1Victim l1VictimSpec
  cases h0 : (set 0).valid <;> cases h1 : (set 1).valid <;>
    cases h2 : (set 2).valid <;> cases h3 : (set 3).valid <;>
    cases h4 : (set 4).valid <;> cases h5 : (set 5).valid <;>
    cases h6 : (set 6).valid <;> cases h7 : (set 7).valid <;>
    simp [h0, h1, h2, h3, h4, h5, h6, h7, List.find?]

/-- A byte inside the written window reads back the little-endian byte of
the stored u64 value. -/
lemma writeU64Bytes_hit (b : Nat → Nat) (a v j : Nat) (hj : j < 8) :
    writeU64Bytes b a v (a + j) = u64Byte v j := by
  unfold writeU64Bytes
  rw [if_pos ⟨Nat.le_add_right _ _, by omega⟩]
  congr 1
  omega

/-- A byte outside the written window is unchanged. -/
lemma writeU64Bytes_miss (b : Nat → Nat) (a v i : Nat) (h : i < a ∨ a + 8 ≤ i) :
    writeU64Bytes b a v i = b i := by
  unfold writeU64Bytes
  rw [if_neg]
  omega

/-- Reassembling the 8 little-endian bytes of a u64 value below 2^64 gives
the value back. -/
lemma u64Byte_sum (v : Nat) (hv : v < U64) :
    u64Byte v 0 % 256 + u64Byte v 1 % 256 * 2 ^ 8 + u64Byte v 2 % 256 * 2 ^ 16 +
    u64Byte v 3 % 256 * 2 ^ 24 + u64Byte v 4 % 256 * 2 ^ 32 + u64Byte v 5 % 256 * 2 ^ 40 +
    u64Byte v 6 % 256 * 2 ^ 48 + u64Byte v 7 % 256 * 2 ^ 56 = v := by
  unfold u64Byte U64 at *
  norm_num
  omega

/-- Decoding the page-table entry whose 8 bytes were just stored gives back
the stored u64 value. -/
lemma readEntry_writeU64Bytes_same (len : Nat) (bytes : Nat → Nat) (loc idx v : Nat)
    (hidx : idx < 512) (hb : ¬((loc + 4096) % U64 > len)) (hloc : loc < len)
    (hv : v < U64) :
    readEntry ⟨len, writeU64Bytes bytes (loc + 8 * idx) v⟩ loc idx = some v := by
  unfold readEntry Memory.read
  rw [if_neg hb, if_pos hloc, Option.map_some']
  congr 1
  have hview : ∀ j, j < 8 →
      (if 8 * idx + j < 4096 then writeU64Bytes bytes (loc + 8 * idx) v (loc + (8 * idx + j)) % 256 else 0)
        = u64Byte v j % 256 := by
    intro j hj
    rw [if_pos (by omega)]
    have harg : loc + (8 * idx + j) = (loc + 8 * idx) + j := by omega
    rw [harg, writeU64Bytes_hit _ _ _ _ hj]
  have e0 := hview 0 (by norm_num)
  have e1 := hview 1 (by norm_num)
  have e2 := hview 2 (by norm_num)
  have e3 := hview 3 (by norm_num)
  have e4 := hview 4 (by norm_num)
  have e5 := hview 5 (by norm_num)
  have e6 := hview 6 (by norm_num)
  have e7 := hview 7 (by norm_num)
  simp only [Nat.add_zero] at e0
  unfold readU64At
  simp only []
  rw [e0, e1, e2, e3, e4, e5, e6, e7]
  exact u64Byte_sum v hv

/-- Bit i of the page-table entry frame mask 0x000FFFFFFFFFFFF000 is set
exactly for 12 <= i < 60. -/
lemma testBit_frameMask (j : Nat) :
    Nat.testBit 0x000FFFFFFFFFFFF000 j = (decide (12 ≤ j) && decide (j < 60)) := by
  have h : (0x000FFFFFFFFFFFF000 : Nat) = (2 ^ 48 - 1) <<< 12 := by
    rw [Nat.shiftLeft_eq]
    norm_num
  rw [h, Nat.testBit_shiftLeft, Nat.testBit_two_pow_sub_one]
  rcases Nat.lt_or_ge j 12 with hj | hj
  · simp [Nat.not_le.mpr hj]
  · simp only [decide_eq_true (by omega : 12 ≤ j), Bool.true_and]
    exact decide_eq_decide.mpr (by omega)

/-- Bit i of the 12-bit offset mask 4095 is set exactly for i < 12. -/
lemma testBit_offsetMask (j : Nat) : Nat.testBit 4095 j = decide (j < 12) := by
  have h : (4095 : Nat) = 2 ^ 12 - 1 := by norm_num
  rw [h, Nat.testBit_two_pow_sub_one]

/-- Replacing the page offset of any address leaves the frame number of its
offset-cleared form. -/
lemma frame_number_with_offset2 (a o : Nat) :
    PhysAddr.frame_number (PhysAddr.with_offset a o) =
    PhysAddr.frame_number (a &&& 0xFFFFFFFFFFFFF000) := by
  unfold PhysAddr.frame_number PhysAddr.with_offset
  apply Nat.eq_of_testBit_eq
  intro i
  simp only [Nat.testBit_shiftRight, Nat.testBit_or, Nat.testBit_and, testBit_offsetMask]
  have h2 : ¬(12 + i < 12) := by omega
  simp [h2]

set_option maxHeartbeats 1600000 in
set_option maxRecDepth 16384 in
/-- On a TLB miss, translate is the 4-level walk pageWalkSpec followed, on
success, by the TLB insert described by tlbInsertSet. -/
lemma translate_miss_eq (m : Machine) (v : Nat)
    (hmiss : tlbFind (m.tlb (VirtAddr.virtual_page_number v &&& 127))
      ((VirtAddr.virtual_page_number v >>> 7) <<< 7) = none) :
    match pageWalkSpec m.memory m.cr3 v with
    | none => m.translate v = none
    | some (Except.error e) =>
        m.translate v = some (Except.error e, { m with stats := faultStats m.stats })
    | some (Except.ok pa) =>
        m.translate v = some
          (Except.ok (PhysAddr.with_offset pa (VirtAddr.page_offset v)),
           { m with
             tlb := upd m.tlb (VirtAddr.virtual_page_number v &&& 127)
               (tlbInsertSet (m.tlb (VirtAddr.virtual_page_number v &&& 127))
                 ((VirtAddr.virtual_page_number v >>> 7) <<< 7) pa),
             stats := missInsertStats m.stats }) := by
  have hk4 := tlbVictim_lt_four (m.tlb (VirtAddr.virtual_page_number v &&& 127))
  have hvs := tlbVictim_eq_spec (m.tlb (VirtAddr.virtual_page_number v &&& 127))
  simp only [Machine.translate, pageWalkSpec, hmiss]
  cases hr1 : readEntry m.memory m.cr3 (VirtAddr.vpn1 v) with
  | none => simp
  | some pte1 =>
    cases hb1 : PageTableEntry.is_present pte1 with
    | false => simp [hb1]
    | true =>
      simp only [hb1, Bool.true_eq_false, if_false]
      cases hr2 : readEntry m.memory (PageTableEntry.phys_addr pte1) (VirtAddr.vpn2 v) with
      | none => simp
      | some pte2 =>
        cases hb2 : PageTableEntry.is_present pte2 with
        | false => simp [hb2]
        | true =>
          simp only [hb2, Bool.true_eq_false, if_false]
          cases hr3 : readEntry m.memory (PageTableEntry.phys_addr pte2) (VirtAddr.vpn3 v) with
          | none => simp
          | some pte3 =>
            cases hb3 : PageTableEntry.is_present pte3 with
            | false => simp [hb3]
            | true =>
              simp only [hb3, Bool.true_eq_false, if_false]
              cases hr4 : readEntry m.memory (PageTableEntry.phys_addr pte3) (VirtAddr.vpn4 v) with
              | none => simp
              | some pte4 =>
                cases hb4 : PageTableEntry.is_present pte4 with
                | false => simp [hb4]
                | true =>
                  simp only [hb4, Bool.true_eq_false, if_false]
                  unfold tlbInsertSet missInsertStats
                  rw [Option.some.injEq, Prod.mk.injEq]
                  refine ⟨rfl, ?_⟩
                  rw [Machine.mk.injEq]
                  refine ⟨rfl, ?_, rfl, rfl, rfl⟩
                  apply congrArg
                  funext j
                  unfold upd
                  by_cases hj : j = tlbVictimSpec (m.tlb (VirtAddr.virtual_page_number v &&& 127))
                  · rw [hvs, if_pos hj, if_pos hj, if_pos (hvs ▸ hk4)]
                  · rw [hvs, if_neg hj, if_neg hj]

/-- On a TLB hit at way i, translate returns the cached address recombined
with the page offset, marks the way accessed, and counts a TLB hit. -/
lemma translate_hit_eq (m : Machine) (v : Nat) (i : Nat)
    (hfind : tlbFind (m.tlb (VirtAddr.virtual_page_number v &&& 127))
      ((VirtAddr.virtual_page_number v >>> 7) <<< 7) = some i) :
    m.translate v = some
      (Except.ok (PhysAddr.with_offset
        ((m.tlb (VirtAddr.virtual_page_number v &&& 127) i)).addr (VirtAddr.page_offset v)),
       { m with
         tlb := upd m.tlb (VirtAddr.virtual_page_number v &&& 127)
           (upd (m.tlb (VirtAddr.virtual_page_number v &&& 127)) i
             ((m.tlb (VirtAddr.virtual_page_number v &&& 127) i)).mark_accessed),
         stats := { m.stats with tlb := m.stats.tlb.addHit } }) := by
  simp only [Machine.translate, hfind]

/-- read_phys changes at most the L1 cache and the L1 statistics: the TLB,
the TLB statistics, the memory and cr3 are untouched. -/
lemma read_phys_preserves (m : Machine) (a b : Nat) (m2 : Machine)
    (h : m.read_phys a = some (b, m2)) :
    m2.tlb = m.tlb ∧ m2.stats.tlb = m.stats.tlb ∧ m2.memory = m.memory ∧ m2.cr3 = m.cr3 := by
  revert h
  simp only [Machine.read_phys]
  cases hf : l1Find (m.cache ((PhysAddr.frame_offset a >>> 6) &&& 63))
      (PhysAddr.frame_number a) with
  | some i =>
    intro h
    simp only [Option.some.injEq, Prod.mk.injEq] at h
    rw [← h.2]
    exact ⟨rfl, rfl, rfl, rfl⟩
  | none =>
    cases hrd : m.memory.read (a &&& 0xFFFFFFFFFFFFFFC0) 64 with
    | none => intro h; simp at h
    | some bv =>
      intro h
      simp only [Option.some.injEq, Prod.mk.injEq] at h
      rw [← h.2]
      exact ⟨rfl, rfl, rfl, rfl⟩

/-- If a lookup missed the old set, and the new set differs from it only at
way K (valid with the lookup tag), the lookup now finds exactly way K. -/
lemma tlbFind_after_insert (set NS : Nat → TlbEntry) (tag K : Nat) (hK : K < 4)
    (hmiss : tlbFind set tag = none)
    (hNSK : (NS K).tag = tag ∧ (NS K).valid = true)
    (hNSother : ∀ j, j < 4 → j ≠ K → (NS j).tag = (set j).tag ∧ (NS j).valid = (set j).valid) :
    tlbFind NS tag = some K := by
  have hfail := List.find?_eq_none.mp hmiss
  have hfail4 : ∀ j, j < 4 → ((set j).tag == tag && (set j).valid) = false := by
    intro j hj
    have hmem : j ∈ [0, 1, 2, 3] := by interval_cases j <;> simp
    have hx := hfail j hmem
    revert hx
    cases hxx : ((set j).tag == tag && (set j).valid) <;> simp
  have hmatch : ∀ j, j < 4 → j ≠ K → ((NS j).tag == tag && (NS j).valid) = false := by
    intro j hj hjK
    rw [(hNSother j hj hjK).1, (hNSother j hj hjK).2]
    exact hfail4 j hj
  have hKt : ((NS K).tag == tag && (NS K).valid) = true := by
    rw [hNSK.1, hNSK.2]
    simp
  interval_cases K
  · simp [tlbFind, List.find?, hKt]
  · simp [tlbFind, List.find?, hKt,
      hmatch 0 (by norm_num) (by norm_num)]
  · simp [tlbFind, List.find?, hKt,
      hmatch 0 (by norm_num) (by norm_num), hmatch 1 (by norm_num) (by norm_num)]
  · simp [tlbFind, List.find?, hKt,
      hmatch 0 (by norm_num) (by norm_num), hmatch 1 (by norm_num) (by norm_num),
      hmatch 2 (by norm_num) (by norm_num)]

/-- A TLB set that misses a lookup has no valid way carrying the lookup
tag. -/
lemma tlbFind_none_way (set : Nat → TlbEntry) (tag : Nat)
    (hmiss : tlbFind set tag = none) :
    ∀ j, j < 4 → (set j).valid = true → (set j).tag ≠ tag := by
  intro j hj hv htag
  have hmem : j ∈ [0, 1, 2, 3] := by interval_cases j <;> simp
  have hx := List.find?_eq_none.mp hmiss j hmem
  rw [htag, hv] at hx
  simp at hx

/-- Tag uniqueness transfers along any step that preserves every way's tag
and valid flag. -/
lemma tlbUniq_of_preserved (m m2 : Machine)
    (h : ∀ s w, w < 4 →
      (m2.tlb s w).tag = (m.tlb s w).tag ∧ (m2.tlb s w).valid = (m.tlb s w).valid)
    (hu : TlbUniq m) : TlbUniq m2 := by
  intro s i j hi hj hij hvi hvj
  rw [(h s i hi).2] at hvi
  rw [(h s j hj).2] at hvj
  rw [(h s i hi).1, (h s j hj).1]
  exact hu s i j hi hj hij hvi hvj

set_option maxRecDepth 16384 in
/-- translate preserves tag uniqueness of the TLB. -/
lemma tlbUniq_translate (m : Machine) (v : Nat) (r : Except PageFault Nat) (m2 : Machine)
    (hu : TlbUniq m) (htr : m.translate v = some (r, m2)) : TlbUniq m2 := by
  cases htf : tlbFind (m.tlb (VirtAddr.virtual_page_number v &&& 127))
      ((VirtAddr.virtual_page_number v >>> 7) <<< 7) with
  | some i0 =>
    rw [translate_hit_eq m v i0 htf] at htr
    simp only [Option.some.injEq, Prod.mk.injEq] at htr
    apply tlbUniq_of_preserved m m2 _ hu
    intro s w hw4
    rw [← htr.2]
    simp only [upd]
    by_cases h1 : s = VirtAddr.virtual_page_number v &&& 127
    · by_cases h2 : w = i0
      · simp [h1, h2, upd, TlbEntry.mark_accessed]
      · simp [h1, h2, upd]
    · simp [h1, upd]
  | none =>
    have hme := translate_miss_eq m v htf
    cases hw : pageWalkSpec m.memory m.cr3 v with
    | none =>
      rw [hw] at hme
      rw [hme] at htr
      simp at htr
    | some rr =>
      cases rr with
      | error e =>
        rw [hw] at hme
        rw [hme] at htr
        simp only [Option.some.injEq, Prod.mk.injEq] at htr
        apply tlbUniq_of_preserved m m2 _ hu
        intro s w hw4
        rw [← htr.2]
        exact ⟨rfl, rfl⟩
      | ok pa =>
        rw [hw] at hme
        rw [hme] at htr
        simp only [Option.some.injEq, Prod.mk.injEq] at htr
        obtain ⟨-, hm2⟩ := htr
        intro s i j hi hj hij hvi hvj
        rw [← hm2] at hvi hvj ⊢
        simp only [upd] at hvi hvj ⊢
        by_cases hs : s = VirtAddr.virtual_page_number v &&& 127
        · subst hs
          rw [if_pos rfl] at hvi hvj ⊢
          simp only [tlbInsertSet] at hvi hvj ⊢
          by_cases hiK : i = tlbVictimSpec (m.tlb (VirtAddr.virtual_page_number v &&& 127)) <;>
            by_cases hjK : j = tlbVictimSpec (m.tlb (VirtAddr.virtual_page_number v &&& 127))
          · exact absurd (hiK.trans hjK.symm) hij
          · rw [if_pos hiK] at hvi ⊢
            rw [if_neg hjK, if_pos hj] at hvj ⊢
            simp only [TlbEntry.mark_accessed]
            intro hteq
            exact tlbFind_none_way _ _ htf j hj hvj hteq.symm
          · rw [if_neg hiK, if_pos hi] at hvi ⊢
            rw [if_pos hjK] at hvj ⊢
            simp only [TlbEntry.mark_accessed]
            intro hteq
            exact tlbFind_none_way _ _ htf i hi hvi hteq
          · rw [if_neg hiK, if_pos hi] at hvi ⊢
            rw [if_neg hjK, if_pos hj] at hvj ⊢
            exact hu _ i j hi hj hij hvi hvj
        · rw [if_neg hs] at hvi hvj ⊢
          exact hu s i j hi hj hij hvi hvj

/-- read_phys preserves tag uniqueness of the TLB. -/
lemma tlbUniq_read_phys (m : Machine) (a b : Nat) (m2 : Machine)
    (hu : TlbUniq m) (h : m.read_phys a = some (b, m2)) : TlbUniq m2 := by
  obtain ⟨htlb, -, -, -⟩ := read_phys_preserves m a b m2 h
  intro s i j hi hj hij hvi hvj
  rw [htlb] at hvi hvj ⊢
  exact hu s i j hi hj hij hvi hvj

/-- map_page edits only physical memory. -/
lemma map_page_tlb (m : Machine) (loc idx t : Nat) (m2 : Machine)
    (h : m.map_page loc idx t = some m2) : m2.tlb = m.tlb := by
  unfold Machine.map_page at h
  by_cases h1 : (loc + 4096) % U64 > m.memory.len
  · rw [if_pos h1] at h
    exact absurd h (by simp)
  · rw [if_neg h1] at h
    by_cases h2 : loc < m.memory.len
    · rw [if_pos h2] at h
      by_cases h3 : idx < 512
      · rw [if_pos h3] at h
        rw [← Option.some.inj h]
      · rw [if_neg h3] at h
        exact absurd h (by simp)
    · rw [if_neg h2] at h
      exact absurd h (by simp)

/-- unmap_page edits only physical memory. -/
lemma unmap_page_tlb (m : Machine) (loc idx : Nat) (m2 : Machine)
    (h : m.unmap_page loc idx = some m2) : m2.tlb = m.tlb := by
  unfold Machine.unmap_page at h
  by_cases h1 : (loc + 4096) % U64 > m.memory.len
  · rw [if_pos h1] at h
    exact absurd h (by simp)
  · rw [if_neg h1] at h
    by_cases h2 : loc < m.memory.len
    · rw [if_pos h2] at h
      by_cases h3 : idx < 512
      · rw [if_pos h3] at h
        rw [← Option.some.inj h]
      · rw [if_neg h3] at h
        exact absurd h (by simp)
    · rw [if_neg h2] at h
      exact absurd h (by simp)


set_option maxHeartbeats 1000000 in
set_option maxRecDepth 16384 in
/-- C1: on a TLB miss, translate behaves exactly as the spec's 4-level walk
pageWalkSpec describes: it panics when the walk panics, it returns PageFault
and changes only the statistics counters when some level's entry is not
present, and when all 4 levels are present it returns the physical address
stored in the 4th-level entry combined with the original 12-bit page offset,
after inserting that translation (tag and frame, access count 1) into a way
of the indexed TLB set. -/
theorem c1_translate_walk (m : Machine) (v : Nat)
    (hmiss : tlbFind (m.tlb (VirtAddr.virtual_page_number v &&& 127))
      ((VirtAddr.virtual_page_number v >>> 7) <<< 7) = none) :
    match pageWalkSpec m.memory m.cr3 v with
    | none => m.translate v = none
    | some (Except.error e) =>
        m.translate v = some (Except.error e, { m with stats := faultStats m.stats })
    | some (Except.ok pa) =>
        ∃ m2, m.translate v =
            some (Except.ok (PhysAddr.with_offset pa (VirtAddr.page_offset v)), m2) ∧
          m2.memory = m.memory ∧ m2.cache = m.cache ∧ m2.cr3 = m.cr3 ∧
          ∃ i, i < 4 ∧
            m2.tlb (VirtAddr.virtual_page_number v &&& 127) i =
              ⟨true, 1, (VirtAddr.virtual_page_number v >>> 7) <<< 7, pa⟩ := by
  have hme := translate_miss_eq m v hmiss
  cases hw : pageWalkSpec m.memory m.cr3 v with
  | none =>
    rw [hw] at hme
    exact hme
  | some r =>
    cases r with
    | error e =>
      rw [hw] at hme
      exact hme
    | ok pa =>
      rw [hw] at hme
      refine ⟨_, hme, rfl, rfl, rfl,
        tlbVictimSpec (m.tlb (VirtAddr.virtual_page_number v &&& 127)), ?_, ?_⟩
      · rw [← tlbVictim_eq_spec]
        exact tlbVictim_lt_four _
      · simp [upd_self, tlbInsertSet, TlbEntry.mark_accessed]

/-- C1, witness: the fresh machine M0 misses its empty TLB at virtual
address 0 and the walk faults at level 1. -/
theorem c1_translate_walk_witness :
    M0.translate 0 = some (Except.error {}, { M0 with stats := faultStats M0.stats }) := by
  have h := c1_translate_walk M0 0 (by decide)
  rw [show pageWalkSpec M0.memory M0.cr3 0 = some (Except.error {}) from by decide] at h
  exact h

/-- C2, counterexample: in machine MBt the TLB caches the translation of
virtual page 0; after unmap_page(16384, 0) removes the 4th-level slot that
virtual address 0 resolves through (the walk still reaches table 16384 with
vpn4 = 0, whose entry is now 0, not present), translate still returns
Ok 20480 from the stale TLB entry instead of PageFault. -/
theorem c2_counterexample :
    MBt.unmap_page 16384 0 = some MBtu ∧
    readEntry MBtu.memory MBtu.cr3 (VirtAddr.vpn1 0) = some 8193 ∧
    PageTableEntry.is_present 8193 = true ∧
    readEntry MBtu.memory (PageTableEntry.phys_addr 8193) (VirtAddr.vpn2 0) = some 12289 ∧
    PageTableEntry.is_present 12289 = true ∧
    readEntry MBtu.memory (PageTableEntry.phys_addr 12289) (VirtAddr.vpn3 0) = some 16385 ∧
    PageTableEntry.is_present 16385 = true ∧
    PageTableEntry.phys_addr 16385 = 16384 ∧
    VirtAddr.vpn4 0 = 0 ∧
    readEntry MBtu.memory 16384 0 = some 0 ∧
    PageTableEntry.is_present 0 = false ∧
    (MBtu.translate 0).map Prod.fst = some (Except.ok 20480) := by
  exact ⟨rfl, by decide, by decide, by decide, by decide, by decide, by decide,
    by decide, by decide, by decide, by decide, by decide⟩

set_option maxHeartbeats 1000000 in
theorem c2_unmap_faults (m m2 : Machine) (loc idx v : Nat) (pte1 pte2 pte3 : Nat)
    (hun : m.unmap_page loc idx = some m2)
    (hmiss : tlbFind (m2.tlb (VirtAddr.virtual_page_number v &&& 127))
      ((VirtAddr.virtual_page_number v >>> 7) <<< 7) = none)
    (hvpn : VirtAddr.vpn4 v = idx)
    (hr1 : readEntry m2.memory m2.cr3 (VirtAddr.vpn1 v) = some pte1)
    (hb1 : PageTableEntry.is_present pte1 = true)
    (hr2 : readEntry m2.memory (PageTableEntry.phys_addr pte1) (VirtAddr.vpn2 v) = some pte2)
    (hb2 : PageTableEntry.is_present pte2 = true)
    (hr3 : readEntry m2.memory (PageTableEntry.phys_addr pte2) (VirtAddr.vpn3 v) = some pte3)
    (hb3 : PageTableEntry.is_present pte3 = true)
    (hloc : PageTableEntry.phys_addr pte3 = loc) :
    m2.translate v = some (Except.error {}, { m2 with stats := faultStats m2.stats }) := by
  unfold Machine.unmap_page at hun
  by_cases h1 : (loc + 4096) % U64 > m.memory.len
  · rw [if_pos h1] at hun
    exact absurd hun (by simp)
  · rw [if_neg h1] at hun
    by_cases h2 : loc < m.memory.len
    · rw [if_pos h2] at hun
      by_cases h3 : idx < 512
      · rw [if_pos h3] at hun
        have hm2 := (Option.some.inj hun).symm
        have hr4 : readEntry m2.memory loc idx = some PageTableEntry.new_unmapped := by
          rw [hm2]
          exact readEntry_writeU64Bytes_same m.memory.len m.memory.bytes loc idx
            PageTableEntry.new_unmapped h3 h1 h2 (by norm_num [PageTableEntry.new_unmapped, U64])
        simp only [Machine.translate, hmiss, hr1, hb1, hr2, hb2, hr3, hb3,
          Bool.true_eq_false, if_false, hloc, hvpn, hr4]
        simp [PageTableEntry.is_present, PageTableEntry.new_unmapped]
      · rw [if_neg h3] at hun
        exact absurd hun (by simp)
    · rw [if_neg h2] at hun
      exact absurd hun (by simp)

/-- C2 amended, witness: unmapping slot 0 of the 4th-level table 16384 in MB
(whose TLB is empty) makes virtual address 0 fault. -/
theorem c2_unmap_faults_witness :
    MBu.translate 0 = some (Except.error {}, { MBu with stats := faultStats MBu.stats }) :=
  c2_unmap_faults MB MBu 16384 0 0 8193 12289 16385 rfl (by decide) (by decide)
    (by decide) (by decide) (by decide) (by decide) (by decide) (by decide) (by decide)

set_option maxHeartbeats 1000000 in
set_option maxRecDepth 16384 in
/-- C3: on a TLB miss whose page walk succeeds (all 4 levels present),
translate rebuilds the indexed TLB set exactly as tlbInsertSet describes:
the victim is the first invalid way, or if all are valid the way with the
lowest access counter (first encountered winning ties); all four access
counters of the set are reset to 0; the victim is marked valid, given the
new tag and the 4th-level physical address, and its own counter ends at 1
via the same accessed-marking routine used on hits. -/
theorem c3_tlb_insert (m : Machine) (v : Nat) (pte1 pte2 pte3 pte4 : Nat)
    (hmiss : tlbFind (m.tlb (VirtAddr.virtual_page_number v &&& 127))
      ((VirtAddr.virtual_page_number v >>> 7) <<< 7) = none)
    (hr1 : readEntry m.memory m.cr3 (VirtAddr.vpn1 v) = some pte1)
    (hb1 : PageTableEntry.is_present pte1 = true)
    (hr2 : readEntry m.memory (PageTableEntry.phys_addr pte1) (VirtAddr.vpn2 v) = some pte2)
    (hb2 : PageTableEntry.is_present pte2 = true)
    (hr3 : readEntry m.memory (PageTableEntry.phys_addr pte2) (VirtAddr.vpn3 v) = some pte3)
    (hb3 : PageTableEntry.is_present pte3 = true)
    (hr4 : readEntry m.memory (PageTableEntry.phys_addr pte3) (VirtAddr.vpn4 v) = some pte4)
    (hb4 : PageTableEntry.is_present pte4 = true) :
    m.translate v = some
      (Except.ok (PhysAddr.with_offset (PageTableEntry.phys_addr pte4) (VirtAddr.page_offset v)),
       { m with
         tlb := upd m.tlb (VirtAddr.virtual_page_number v &&& 127)
           (tlbInsertSet (m.tlb (VirtAddr.virtual_page_number v &&& 127))
             ((VirtAddr.virtual_page_number v >>> 7) <<< 7)
             (PageTableEntry.phys_addr pte4)),
         stats := missInsertStats m.stats }) := by
  have hw : pageWalkSpec m.memory m.cr3 v =
      some (Except.ok (PageTableEntry.phys_addr pte4)) := by
    simp only [pageWalkSpec, hr1, hb1, hr2, hb2, hr3, hb3, hr4, hb4,
      Bool.true_eq_false, if_false]
  have hme := translate_miss_eq m v hmiss
  rw [hw] at hme
  exact hme

/-- C3, witness: the mapped machine MB translating virtual address 0 on an
empty TLB set; the victim is way 0, the first invalid way. -/
theorem c3_tlb_insert_witness :
    MB.translate 0 = some
      (Except.ok (PhysAddr.with_offset (PageTableEntry.phys_addr 20481) (VirtAddr.page_offset 0)),
       { MB with
         tlb := upd MB.tlb (VirtAddr.virtual_page_number 0 &&& 127)
           (tlbInsertSet (MB.tlb (VirtAddr.virtual_page_number 0 &&& 127))
             ((VirtAddr.virtual_page_number 0 >>> 7) <<< 7)
             (PageTableEntry.phys_addr 20481)),
         stats := missInsertStats MB.stats }) :=
  c3_tlb_insert MB 0 8193 12289 16385 20481 (by decide) (by decide) (by decide)
    (by decide) (by decide) (by decide) (by decide) (by decide) (by decide)

set_option maxHeartbeats 1000000 in
theorem c4_l1_insert (m : Machine) (a : Nat) (bv : Nat → Nat)
    (hmiss : l1Find (m.cache ((PhysAddr.frame_offset a >>> 6) &&& 63))
      (PhysAddr.frame_number a) = none)
    (hrd : m.memory.read (a &&& 0xFFFFFFFFFFFFFFC0) 64 = some bv) :
    bv = (fun i => if i < 64 then m.memory.bytes ((a &&& 0xFFFFFFFFFFFFFFC0) + i) % 256 else 0) ∧
    m.read_phys a = some (bv (PhysAddr.frame_offset a &&& 63),
      { m with
        cache := upd m.cache ((PhysAddr.frame_offset a >>> 6) &&& 63)
          (fun j =>
            if j = l1VictimSpec (m.cache ((PhysAddr.frame_offset a >>> 6) &&& 63)) then
              ⟨true, PhysAddr.frame_number a, bv⟩
            else m.cache ((PhysAddr.frame_offset a >>> 6) &&& 63) j),
        stats := { m.stats with l1 := m.stats.l1.addMiss } }) := by
  have hbv : bv = (fun i =>
      if i < 64 then m.memory.bytes ((a &&& 0xFFFFFFFFFFFFFFC0) + i) % 256 else 0) := by
    unfold Memory.read at hrd
    by_cases h1 : ((a &&& 0xFFFFFFFFFFFFFFC0) + 64) % U64 > m.memory.len
    · rw [if_pos h1] at hrd
      exact absurd hrd (by simp)
    · rw [if_neg h1] at hrd
      by_cases h2 : (a &&& 0xFFFFFFFFFFFFFFC0) < m.memory.len
      · rw [if_pos h2] at hrd
        exact (Option.some.inj hrd).symm
      · rw [if_neg h2] at hrd
        exact absurd hrd (by simp)
  refine ⟨hbv, ?_⟩
  have hvs := l1Victim_eq_spec (m.cache ((PhysAddr.frame_offset a >>> 6) &&& 63))
  simp only [Machine.read_phys, hmiss, hrd]
  rw [Option.some.injEq, Prod.mk.injEq]
  refine ⟨rfl, ?_⟩
  rw [Machine.mk.injEq]
  refine ⟨rfl, rfl, rfl, ?_, rfl⟩
  apply congrArg
  funext j
  unfold upd
  rw [hvs]

/-- C4, witness: the mapped machine MB reading physical address 0 with an
empty cache set misses and fills the victim way. -/
theorem c4_l1_insert_witness :
    (fun i => if i < 64 then MB.memory.bytes ((0 &&& 0xFFFFFFFFFFFFFFC0) + i) % 256 else 0) =
      (fun i => if i < 64 then MB.memory.bytes ((0 &&& 0xFFFFFFFFFFFFFFC0) + i) % 256 else 0) ∧
    MB.read_phys 0 = some
      ((fun i => if i < 64 then MB.memory.bytes ((0 &&& 0xFFFFFFFFFFFFFFC0) + i) % 256 else 0)
         (PhysAddr.frame_offset 0 &&& 63),
       { MB with
         cache := upd MB.cache ((PhysAddr.frame_offset 0 >>> 6) &&& 63)
           (fun j =>
             if j = l1VictimSpec (MB.cache ((PhysAddr.frame_offset 0 >>> 6) &&& 63)) then
               ⟨true, PhysAddr.frame_number 0,
                fun i => if i < 64 then MB.memory.bytes ((0 &&& 0xFFFFFFFFFFFFFFC0) + i) % 256 else 0⟩
             else MB.cache ((PhysAddr.frame_offset 0 >>> 6) &&& 63) j),
         stats := { MB.stats with l1 := MB.stats.l1.addMiss } }) :=
  c4_l1_insert MB 0
    (fun i => if i < 64 then MB.memory.bytes ((0 &&& 0xFFFFFFFFFFFFFFC0) + i) % 256 else 0)
    (by decide) rfl


/-- C5, counterexample: new_present masks the target with
0x000FFFFFFFFFFFF000, which clears bits 60..63 in addition to the low 12
bits.  For target 2^60 the stored frame address is 0, not the target with
only its low 12 bits cleared (which would be 2^60 itself). -/
theorem c5_counterexample :
    PageTableEntry.phys_addr (PageTableEntry.new_present 0x1000000000000000) = 0 ∧
    0x1000000000000000 &&& 0xFFFFFFFFFFFFF000 = 0x1000000000000000 ∧
    (0 : Nat) ≠ 0x1000000000000000 := by
  refine ⟨by decide, by decide, by decide⟩

/-- C5, amended: new_present target has bit 0 (the present flag) set, so
is_present holds of it; it carries the bits 12..59 of the target (the mask
0x000FFFFFFFFFFFF000 forces the low 12 bits and bits 60..63 to 0), and
phys_addr returns exactly target masked to bits 12..59, a page-aligned
value; new_unmapped yields an entry that is not present. -/
theorem c5_pte_layout (target : Nat) :
    PageTableEntry.is_present (PageTableEntry.new_present target) = true ∧
    PageTableEntry.new_present target &&& 1 = 1 ∧
    PageTableEntry.phys_addr (PageTableEntry.new_present target) =
      target &&& 0x000FFFFFFFFFFFF000 ∧
    PageTableEntry.phys_addr (PageTableEntry.new_present target) &&& 4095 = 0 ∧
    PageTableEntry.is_present PageTableEntry.new_unmapped = false := by
  have hbit1 : (target &&& 0x000FFFFFFFFFFFF000 ||| 1) % 2 = 1 :=
    Nat.or_mod_two_eq_one.mpr (Or.inr (by norm_num))
  have htb1 : ∀ i, Nat.testBit 1 i = decide (0 = i) := by
    intro i
    rw [show (1 : Nat) = 2 ^ 0 by norm_num, Nat.testBit_two_pow]
  have h3 : PageTableEntry.phys_addr (PageTableEntry.new_present target) =
      target &&& 0x000FFFFFFFFFFFF000 := by
    unfold PageTableEntry.phys_addr PageTableEntry.new_present
    apply Nat.eq_of_testBit_eq
    intro i
    simp only [Nat.testBit_and, Nat.testBit_or, testBit_frameMask, htb1]
    by_cases hi : i = 0
    · subst hi
      simp
    · simp only [decide_eq_false (show ¬(0 = i) from fun h => hi h.symm), Bool.or_false]
      rw [Bool.and_assoc, Bool.and_self]
  refine ⟨?_, ?_, h3, ?_, by decide⟩
  · unfold PageTableEntry.is_present PageTableEntry.new_present
    rw [Nat.and_one_is_mod, hbit1]
    decide
  · unfold PageTableEntry.new_present
    rw [Nat.and_one_is_mod, hbit1]
  · rw [h3]
    apply Nat.eq_of_testBit_eq
    intro i
    simp only [Nat.testBit_and, testBit_frameMask, testBit_offsetMask, Nat.zero_testBit]
    by_cases h : 12 ≤ i
    · simp [h, Nat.not_lt.mpr h]
    · simp [h]

/-- C9, counterexample: the only invalidation operation Machine exposes is
invalidate_tlb; on a machine MC whose L1 cache holds valid entries it resets
the TLB but leaves every cache entry untouched and valid, so Machine has no
operation that resets the L1 cache to its all-invalid state. -/
theorem c9_counterexample :
    Machine.invalidate_tlb MC = { MC with tlb := fun _ _ => TlbEntry.invalid } ∧
    ((Machine.invalidate_tlb MC).cache 0 0).valid = true ∧
    (Machine.invalidate_tlb MC).cache 0 0 = MC.cache 0 0 := by
  exact ⟨rfl, rfl, rfl⟩

/-- C9, amended: Machine exposes invalidate_tlb, which resets the TLB to
its all-invalid empty state and changes nothing else; the source has no
invalidate_cache operation. -/
theorem c9_invalidate_tlb (m : Machine) :
    (m.invalidate_tlb).tlb = (fun _ _ => TlbEntry.invalid) ∧
    (m.invalidate_tlb).cache = m.cache ∧
    (m.invalidate_tlb).memory = m.memory ∧
    (m.invalidate_tlb).stats = m.stats ∧
    (m.invalidate_tlb).cr3 = m.cr3 :=
  ⟨rfl, rfl, rfl, rfl, rfl⟩

/-- C8: Memory::read and Memory::edit of a count-byte value at address a
never touch a byte outside the buffer: a successful read or edit implies the
whole window [a, a + count) lies inside the buffer, an access whose window
exceeds the buffer aborts (none), the value read depends only on the bytes
of the window, and a successful edit rewrites exactly the window and leaves
every other byte unchanged.  The bounds L < 2^63 and count < 2^63 are Rust
guarantees (a Vec length and a type size never exceed isize::MAX), and a can
be any u64-size address, including those for which a + count wraps. -/
theorem c8_memory_bounds (L a count : Nat) (bytes bytes2 v : Nat → Nat)
    (hL : L < 2 ^ 63) (hcount : count < 2 ^ 63)
    (heq : ∀ i, i < count → bytes2 (a + i) = bytes (a + i)) :
    ((Memory.read ⟨L, bytes⟩ a count).isSome → a + count ≤ L) ∧
    (a + count > L → Memory.read ⟨L, bytes⟩ a count = none) ∧
    Memory.read ⟨L, bytes2⟩ a count = Memory.read ⟨L, bytes⟩ a count ∧
    ((Memory.edit ⟨L, bytes⟩ a count v).isSome → a + count ≤ L) ∧
    (a + count > L → Memory.edit ⟨L, bytes⟩ a count v = none) ∧
    ((Memory.edit ⟨L, bytes⟩ a count v).isSome →
      Memory.edit ⟨L, bytes⟩ a count v =
        some ⟨L, fun i => if a ≤ i ∧ i < a + count then v (i - a) % 256 else bytes i⟩) := by
  have hU : U64 = 18446744073709551616 := rfl
  by_cases h1 : (a + count) % U64 > L
  · have hr : Memory.read ⟨L, bytes⟩ a count = none := by simp [Memory.read, h1]
    have hr2 : Memory.read ⟨L, bytes2⟩ a count = none := by simp [Memory.read, h1]
    have he : Memory.edit ⟨L, bytes⟩ a count v = none := by simp [Memory.edit, h1]
    simp [hr, hr2, he]
  · by_cases h2 : a < L
    · have h1o := h1
      rw [hU] at h1o
      have hbound : a + count ≤ L := by omega
      have hr : Memory.read ⟨L, bytes⟩ a count =
          some (fun i => if i < count then bytes (a + i) % 256 else 0) := by
        simp [Memory.read, h1, h2]
      have hr2 : Memory.read ⟨L, bytes2⟩ a count =
          some (fun i => if i < count then bytes2 (a + i) % 256 else 0) := by
        simp [Memory.read, h1, h2]
      have he : Memory.edit ⟨L, bytes⟩ a count v =
          some ⟨L, fun i => if a ≤ i ∧ i < a + count then v (i - a) % 256 else bytes i⟩ := by
        simp [Memory.edit, h1, h2]
      refine ⟨fun _ => hbound, fun hgt => absurd hbound (by omega), ?_,
        fun _ => hbound, fun hgt => absurd hbound (by omega), fun _ => he⟩
      rw [hr, hr2]
      congr 1
      funext i
      by_cases h3 : i < count
      · simp [h3, heq i h3]
      · simp [h3]
    · have hr : Memory.read ⟨L, bytes⟩ a count = none := by simp [Memory.read, h1, h2]
      have hr2 : Memory.read ⟨L, bytes2⟩ a count = none := by simp [Memory.read, h1, h2]
      have he : Memory.edit ⟨L, bytes⟩ a count v = none := by simp [Memory.edit, h1, h2]
      simp [hr, hr2, he]

/-- C8, witness: a 100-byte buffer, an 8-byte access at address 2. -/
theorem c8_memory_bounds_witness :
    ((Memory.read ⟨100, fun _ => 0⟩ 2 8).isSome → 2 + 8 ≤ 100) ∧
    (2 + 8 > 100 → Memory.read ⟨100, fun _ => 0⟩ 2 8 = none) ∧
    Memory.read ⟨100, fun _ => 0⟩ 2 8 = Memory.read ⟨100, fun _ => 0⟩ 2 8 ∧
    ((Memory.edit ⟨100, fun _ => 0⟩ 2 8 (fun _ => 5)).isSome → 2 + 8 ≤ 100) ∧
    (2 + 8 > 100 → Memory.edit ⟨100, fun _ => 0⟩ 2 8 (fun _ => 5) = none) ∧
    ((Memory.edit ⟨100, fun _ => 0⟩ 2 8 (fun _ => 5)).isSome →
      Memory.edit ⟨100, fun _ => 0⟩ 2 8 (fun _ => 5) =
        some ⟨100, fun i => if 2 ≤ i ∧ i < 2 + 8 then (fun _ : Nat => 5) (i - 2) % 256 else 0⟩) :=
  c8_memory_bounds 100 2 8 (fun _ => 0) (fun _ => 0) (fun _ => 5)
    (by norm_num) (by norm_num) (fun _ _ => rfl)

set_option maxHeartbeats 1000000 in
set_option maxRecDepth 16384 in
theorem c6_tlb_hit_reproducible (m m1 : Machine) (v v2 b : Nat)
    (hmiss : tlbFind (m.tlb (VirtAddr.virtual_page_number v &&& 127))
      ((VirtAddr.virtual_page_number v >>> 7) <<< 7) = none)
    (hrd : m.read v = some (Except.ok b, m1))
    (hvpn : VirtAddr.virtual_page_number v2 = VirtAddr.virtual_page_number v) :
    ∃ pa1 mt pa2 m2,
      m.translate v = some (Except.ok pa1, mt) ∧
      m1.translate v2 = some (Except.ok pa2, m2) ∧
      m2.stats.tlb.hit = m1.stats.tlb.hit + 1 ∧
      m2.stats.tlb.miss = m1.stats.tlb.miss ∧
      PhysAddr.frame_number pa2 = PhysAddr.frame_number pa1 ∧
      (VirtAddr.page_offset v2 = VirtAddr.page_offset v → pa2 = pa1) := by
  have hme := translate_miss_eq m v hmiss
  cases hw : pageWalkSpec m.memory m.cr3 v with
  | none =>
    rw [hw] at hme
    exfalso
    unfold Machine.read at hrd
    rw [hme] at hrd
    simp at hrd
  | some r =>
    cases r with
    | error e =>
      rw [hw] at hme
      exfalso
      unfold Machine.read at hrd
      rw [hme] at hrd
      simp at hrd
    | ok pa =>
      rw [hw] at hme
      unfold Machine.read at hrd
      rw [hme] at hrd
      set MT : Machine :=
        { m with
          tlb := upd m.tlb (VirtAddr.virtual_page_number v &&& 127)
            (tlbInsertSet (m.tlb (VirtAddr.virtual_page_number v &&& 127))
              ((VirtAddr.virtual_page_number v >>> 7) <<< 7) pa),
          stats := missInsertStats m.stats } with hMT
      simp only [] at hrd
      cases hrp : MT.read_phys (PhysAddr.with_offset pa (VirtAddr.page_offset v)) with
      | none =>
        rw [hrp] at hrd
        simp at hrd
      | some q =>
        obtain ⟨bb, m1x⟩ := q
        rw [hrp] at hrd
        simp only [Option.some.injEq, Prod.mk.injEq, Except.ok.injEq] at hrd
        obtain ⟨hbb, hm1⟩ := hrd
        obtain ⟨htlb1, hst1, hmem1, hcr1⟩ := read_phys_preserves MT _ _ _ hrp
        rw [hm1] at htlb1 hst1
        have hmt_tlb : MT.tlb = upd m.tlb (VirtAddr.virtual_page_number v &&& 127)
            (tlbInsertSet (m.tlb (VirtAddr.virtual_page_number v &&& 127))
              ((VirtAddr.virtual_page_number v >>> 7) <<< 7) pa) := by rw [hMT]
        have hK4 : tlbVictimSpec (m.tlb (VirtAddr.virtual_page_number v &&& 127)) < 4 := by
          rw [← tlbVictim_eq_spec]
          exact tlbVictim_lt_four _
        have hfind2 : tlbFind (m1.tlb (VirtAddr.virtual_page_number v &&& 127))
            ((VirtAddr.virtual_page_number v >>> 7) <<< 7) =
            some (tlbVictimSpec (m.tlb (VirtAddr.virtual_page_number v &&& 127))) := by
          rw [htlb1, hmt_tlb, upd_self]
          apply tlbFind_after_insert (m.tlb (VirtAddr.virtual_page_number v &&& 127)) _ _ _ hK4 hmiss
          · constructor
            · simp [tlbInsertSet, TlbEntry.mark_accessed]
            · simp [tlbInsertSet, TlbEntry.mark_accessed]
          · intro j hj hjK
            constructor <;> simp [tlbInsertSet, hjK, hj]
        have hfind2v : tlbFind (m1.tlb (VirtAddr.virtual_page_number v2 &&& 127))
            ((VirtAddr.virtual_page_number v2 >>> 7) <<< 7) =
            some (tlbVictimSpec (m.tlb (VirtAddr.virtual_page_number v &&& 127))) := by
          rw [hvpn]
          exact hfind2
        have hhit := translate_hit_eq m1 v2 _ hfind2v
        have hentry : m1.tlb (VirtAddr.virtual_page_number v2 &&& 127)
            (tlbVictimSpec (m.tlb (VirtAddr.virtual_page_number v &&& 127))) =
            TlbEntry.mark_accessed
              ⟨true, 0, (VirtAddr.virtual_page_number v >>> 7) <<< 7, pa⟩ := by
          rw [hvpn, htlb1, hmt_tlb, upd_self]
          simp [tlbInsertSet]
        refine ⟨_, _, _, _, hme, hhit, ?_, ?_, ?_, ?_⟩
        · simp [CacheStats.addHit]
        · simp [CacheStats.addHit]
        · rw [hentry]
          simp only [TlbEntry.mark_accessed]
          rw [frame_number_with_offset2, frame_number_with_offset2]
        · intro hoff
          rw [hentry]
          simp only [TlbEntry.mark_accessed]
          rw [hoff]


/-- C6, witness: in MB the first read of virtual address 0 misses the TLB;
a second translate at virtual address 5 (same virtual page number) hits and
yields the same frame. -/
theorem c6_tlb_hit_reproducible_witness :
    ∃ pa1 mt pa2 m2,
      MB.translate 0 = some (Except.ok pa1, mt) ∧
      MBr.translate 5 = some (Except.ok pa2, m2) ∧
      m2.stats.tlb.hit = MBr.stats.tlb.hit + 1 ∧
      m2.stats.tlb.miss = MBr.stats.tlb.miss ∧
      PhysAddr.frame_number pa2 = PhysAddr.frame_number pa1 ∧
      (VirtAddr.page_offset 5 = VirtAddr.page_offset 0 → pa2 = pa1) :=
  c6_tlb_hit_reproducible MB MBr 0 5 0 (by decide) rfl rfl

/-- C7: in every Machine state reachable from a freshly constructed Machine
through the public operations, no TLB set contains two distinct valid ways
with the same tag, so at most one way can match a lookup's tag within a
set. -/
theorem c7_tlb_tag_unique (m : Machine) (h : Reachable m) : TlbUniq m := by
  induction h with
  | init cr3 mb =>
    intro s i j hi hj hij hvi hvj
    simp [TlbEntry.invalid] at hvi
  | translate m v r m2 hr htr ih => exact tlbUniq_translate m v r m2 ih htr
  | read_phys m a b m2 hr hrp ih => exact tlbUniq_read_phys m a b m2 ih hrp
  | read m v r m2 hr hrd ih =>
    cases htr : m.translate v with
    | none =>
      unfold Machine.read at hrd
      rw [htr] at hrd
      simp at hrd
    | some p =>
      obtain ⟨rr, mt⟩ := p
      unfold Machine.read at hrd
      rw [htr] at hrd
      have hmtu : TlbUniq mt := tlbUniq_translate m v rr mt ih htr
      cases rr with
      | error e =>
        simp only [Option.some.injEq, Prod.mk.injEq] at hrd
        rw [← hrd.2]
        exact hmtu
      | ok pa =>
        simp only [] at hrd
        cases hrp : mt.read_phys pa with
        | none =>
          rw [hrp] at hrd
          simp at hrd
        | some q =>
          obtain ⟨bb, m2x⟩ := q
          rw [hrp] at hrd
          simp only [Option.some.injEq, Prod.mk.injEq] at hrd
          rw [← hrd.2]
          exact tlbUniq_read_phys mt pa bb m2x hmtu hrp
  | map_page m loc idx t m2 hr hmp ih =>
    have htlb := map_page_tlb m loc idx t m2 hmp
    intro s i j hi hj hij hvi hvj
    rw [htlb] at hvi hvj ⊢
    exact ih s i j hi hj hij hvi hvj
  | unmap_page m loc idx m2 hr hmp ih =>
    have htlb := unmap_page_tlb m loc idx m2 hmp
    intro s i j hi hj hij hvi hvj
    rw [htlb] at hvi hvj ⊢
    exact ih s i j hi hj hij hvi hvj
  | invalidate_tlb m hr ih =>
    intro s i j hi hj hij hvi hvj
    simp [Machine.invalidate_tlb, TlbEntry.invalid] at hvi

/-- C7, witness: tag uniqueness of the freshly constructed machine M0. -/
theorem c7_tlb_tag_unique_witness : TlbUniq M0 :=
  c7_tlb_tag_unique M0 (Reachable.init 4096 1)

set_option maxHeartbeats 1000000 in
set_option maxRecDepth 16384 in
/-- C10: whenever translate returns PageFault, the machine after the call
differs from the one before only in the statistics counters (TLB miss and
page-fault counters up by one): the TLB, the L1 cache, the physical memory
and cr3 are exactly the same; and read propagates the same PageFault with
the same machine, never reaching the L1 cache. -/
theorem c10_fault_preserves_state (m m2 : Machine) (v : Nat) (e : PageFault)
    (h : m.translate v = some (Except.error e, m2)) :
    m2 = { m with stats := faultStats m.stats } ∧
    m2.tlb = m.tlb ∧ m2.cache = m.cache ∧ m2.memory = m.memory ∧ m2.cr3 = m.cr3 ∧
    m.read v = some (Except.error e, m2) := by
  have hread : m.read v = some (Except.error e, m2) := by
    unfold Machine.read
    rw [h]
  have hm2 : m2 = { m with stats := faultStats m.stats } := by
    cases htf : tlbFind (m.tlb (VirtAddr.virtual_page_number v &&& 127))
        ((VirtAddr.virtual_page_number v >>> 7) <<< 7) with
    | some i0 =>
      rw [translate_hit_eq m v i0 htf] at h
      simp at h
    | none =>
      have hme := translate_miss_eq m v htf
      cases hw : pageWalkSpec m.memory m.cr3 v with
      | none =>
        rw [hw] at hme
        rw [hme] at h
        simp at h
      | some rr =>
        cases rr with
        | error e2 =>
          rw [hw] at hme
          rw [hme] at h
          simp only [Option.some.injEq, Prod.mk.injEq] at h
          exact h.2.symm
        | ok pa =>
          rw [hw] at hme
          rw [hme] at h
          simp at h
  exact ⟨hm2, by rw [hm2], by rw [hm2], by rw [hm2], by rw [hm2], hread⟩

/-- C10, witness: the fresh machine M0 faults at virtual address 0. -/
theorem c10_fault_preserves_state_witness :
    M0f = { M0 with stats := faultStats M0.stats } ∧
    M0f.tlb = M0.tlb ∧ M0f.cache = M0.cache ∧ M0f.memory = M0.memory ∧ M0f.cr3 = M0.cr3 ∧
    M0.read 0 = some (Except.error {}, M0f) :=
  c10_fault_preserves_state M0 M0f 0 {} rfl
